import Mathlib

/-!
Shallow embedding of the crypto-vote repository (Go) for checking its
natural-language specification.  Byte slices (`[]byte`) are modelled as
`List Nat` (one entry per byte), Go `int` as `Int`, and the boltdb
key-value store as association-list buckets inside a `DB` record.  The
JSON-at-rest serialization of stored records (base64 of byte fields plus
`json.Marshal`/`json.Unmarshal`) is a bijection on the records the code
stores, so buckets hold the decoded records directly.
-/

namespace CryptoVote

/-- Go byte slice, one `Nat` per byte. -/
abbrev Bytes := List Nat

/-- Model of one boltdb bucket: an association list from keys to values.
`Put` overwrites the value stored at a key; `Get` returns `none` for a
missing key. -/
abbrev BBucket (α : Type) := List (Bytes × α)

/-- Bucket read, mirroring `bolt.Bucket.Get` (nil for a missing key). -/
def bucketGet {α : Type} (b : BBucket α) (k : Bytes) : Option α :=
  (b.find? (fun p => decide (p.1 = k))).map Prod.snd

/-- Bucket write, mirroring `bolt.Bucket.Put` (overwrites the key). -/
def bucketPut {α : Type} (b : BBucket α) (k : Bytes) (v : α) : BBucket α :=
  (k, v) :: b.filter (fun p => decide (p.1 ≠ k))

/-- Bucket delete, mirroring `bolt.Bucket.Delete`. -/
def bucketDelete {α : Type} (b : BBucket α) (k : Bytes) : BBucket α :=
  b.filter (fun p => decide (p.1 ≠ k))

/-! ## Package transaction: data model (transaction.go, input.go, output.go, utxo.go) -/

/-- Value of one vote (`const VoteValue = 10`). -/
def VoteValue : Int := 10

/-- Input of a transaction.  The `vout` is `-1` for base inputs. -/
structure Input where
  transactionID : Bytes
  vout : Int
  publicKeyHash : Bytes
  signature : Bytes
  verifier : Bytes
deriving DecidableEq, Repr

/-- Output of a transaction. -/
structure Output where
  value : Int
  publicKeyHash : Bytes
deriving DecidableEq, Repr

abbrev Inputs := List Input

abbrev Outputs := List Output

/-- Go `Outputs.Find`: first output satisfying the criteria, or nothing.
The Go version returns `(Output{}, false)` when no output matches; the
boolean is modelled by the `Option`. -/
def Outputs.Find (outs : Outputs) (criteria : Output → Bool) : Option Output :=
  List.find? criteria outs

/-- Go `Outputs.Sum`. -/
def Outputs.Sum (outs : Outputs) : Int :=
  outs.foldl (fun sum out => sum + out.value) 0

/-- Transaction record (`transaction.Transaction`). -/
structure Transaction where
  id : Bytes
  inputs : Inputs
  outputs : Outputs
  timestamp : Int
deriving DecidableEq, Repr

/-- Unspent transaction output (`transaction.UTXO`). -/
structure UTXO where
  transactionID : Bytes
  publicKeyHash : Bytes
  value : Int
  vout : Int
deriving DecidableEq, Repr

abbrev UTXOs := List UTXO

/-- Go `UTXOs.Filter`. -/
def UTXOs.Filter (utxos : UTXOs) (criteria : UTXO → Bool) : UTXOs :=
  List.filter criteria utxos

/-- Go `UTXOs.Sum`. -/
def UTXOs.Sum (utxos : UTXOs) : Int :=
  utxos.foldl (fun sum u => sum + u.value) 0

/-- Go `Transaction.UTXOs()`: one UTXO per output, `Vout` = output index. -/
def Transaction.UTXOs (t : Transaction) : UTXOs :=
  t.outputs.enum.map (fun p => UTXO.mk t.id p.2.publicKeyHash p.2.value (p.1 : Int))

/-- Signing payload (`signable` struct literal used by `NewStakeTransaction`,
`NewBaseTransaction` and `VerifyTransactions`; its declaration lives in the
wallet-side file absent from src, fields as used in src). -/
structure Signable where
  recipient : Bytes
  sender : Bytes
  value : Int
deriving DecidableEq, Repr

/-! ## Package repository: the bolt database (utxo.go, transaction.go, blockchain.go) -/

/-- Stored mempool transaction (`repository.tx`): the timestamp is not stored. -/
structure StoredTx where
  id : Bytes
  inputs : Inputs
  outputs : Outputs
deriving DecidableEq, Repr

/-- Go `newTX`: conversion of a transaction to its stored form. -/
def newTX (t : Transaction) : StoredTx :=
  StoredTx.mk t.id t.inputs t.outputs

/-- Block header, modelled from the spec (the blockchain package files
defining it are absent from src):
`Header = (Hash, PrevHash, Height, Timestamp, ForgerPublicKeyHash)`. -/
structure Header where
  hash : Bytes
  prevHash : Bytes
  height : Int
  timestamp : Int
  forgerPublicKeyHash : Bytes
deriving DecidableEq, Repr

/-- Block body, modelled from the spec: an ordered sequence of transactions. -/
structure Body where
  transactions : List Transaction
deriving DecidableEq, Repr

/-- Block, modelled from the spec: `(Header, Body)`. -/
structure Block where
  header : Header
  body : Body
deriving DecidableEq, Repr

/-- Value stored in the blocks bucket: either a serialized block (under the
block hash) or the raw tip hash (under the reserved key `l`).  In bolt both
are byte strings; a JSON-serialized block is never equal to a raw hash, so
the sum is faithful. -/
inductive BlocksVal where
  | blockVal (b : Block)
  | rawVal (h : Bytes)
deriving DecidableEq, Repr

/-- Whole bolt database: one field per bucket, `none` when the bucket has
not been created.  Bucket names from the source: `blocks`, `ether`
(mempool), `utxos-by-pkey`, `utxos-by-tx`. -/
structure DB where
  blocks : Option (BBucket BlocksVal)
  ether : Option (BBucket StoredTx)
  utxosByPkey : Option (BBucket UTXOs)
  utxosByTx : Option (BBucket UTXOs)
deriving Repr

/-- Key of the tip entry in the blocks bucket (`[]byte("l")`). -/
def tipKey : Bytes := [108]

/-- Go `getUTXOsByPublicKey` (utxo.go): nil when the bucket or the key is
missing, modelled as the empty list. -/
def getUTXOsByPublicKey (db : DB) (publicKeyHash : Bytes) : UTXOs :=
  match db.utxosByPkey with
  | none => []
  | some b => (bucketGet b publicKeyHash).getD []

/-- Go `getUTXOByTransactionID` (utxo.go). -/
def getUTXOByTransactionID (db : DB) (transactionID : Bytes) : UTXOs :=
  match db.utxosByTx with
  | none => []
  | some b => (bucketGet b transactionID).getD []

/-- Go `getTransactionUTXO` (utxo.go): first stored UTXO of the transaction
whose `Vout` matches, `nil` (here `none`) otherwise. -/
def getTransactionUTXO (db : DB) (transactionID : Bytes) (vout : Int) : Option UTXO :=
  (getUTXOByTransactionID db transactionID).find? (fun u => decide (u.vout = vout))

/-- Go `saveUTXOsByPublicKey` (utxo.go): creates the `utxos-by-pkey` bucket
when missing and, for each UTXO, appends it to the list stored under its
`PublicKeyHash`. -/
def saveUTXOsByPublicKey (db : DB) (utxos : UTXOs) : DB :=
  let start := db.utxosByPkey.getD []
  let b := utxos.foldl
    (fun (b : BBucket UTXOs) u =>
      let saved := (bucketGet b u.publicKeyHash).getD []
      bucketPut b u.publicKeyHash (saved ++ [u]))
    start
  { db with utxosByPkey := some b }

/-- Go `saveUTXOsByTransactionID` (utxo.go): same, keyed by `TransactionID`
in the `utxos-by-tx` bucket. -/
def saveUTXOsByTransactionID (db : DB) (utxos : UTXOs) : DB :=
  let start := db.utxosByTx.getD []
  let b := utxos.foldl
    (fun (b : BBucket UTXOs) u =>
      let saved := (bucketGet b u.transactionID).getD []
      bucketPut b u.transactionID (saved ++ [u]))
    start
  { db with utxosByTx := some b }

/-- Go `saveUTXOs` (utxo.go): by public key, then by transaction id. -/
def saveUTXOs (db : DB) (utxos : UTXOs) : DB :=
  saveUTXOsByTransactionID (saveUTXOsByPublicKey db utxos) utxos

/-- Go `deleteUTXOByPublicKey` (utxo.go): no-op when the `utxos-by-pkey`
bucket is missing; otherwise keeps, under the key `utxo.PublicKeyHash`,
exactly the stored UTXOs whose `TransactionID` differs from the deleted
one (the `Vout` is not compared). -/
def deleteUTXOByPublicKey (db : DB) (utxo : UTXO) : DB :=
  match db.utxosByPkey with
  | none => db
  | some b =>
    let utxos := getUTXOsByPublicKey db utxo.publicKeyHash
    let updated := utxos.Filter (fun u => decide (utxo.transactionID ≠ u.transactionID))
    { db with utxosByPkey := some (bucketPut b utxo.publicKeyHash updated) }

/-- Go `deleteUTXOByTransactionID` (utxo.go), translated as written: the
bucket handle `b` is obtained from `utxoByPublicKeyBucket()` (the
`utxos-by-pkey` bucket), the stored list is read through
`getUTXOByTransactionID` (the `utxos-by-tx` bucket), and the filtered list
is written through `b.Put` — that is, into the `utxos-by-pkey` bucket —
under the key `utxo.TransactionID`. -/
def deleteUTXOByTransactionID (db : DB) (utxo : UTXO) : DB :=
  match db.utxosByPkey with
  | none => db
  | some b =>
    let utxos := getUTXOByTransactionID db utxo.transactionID
    let updated := utxos.Filter
      (fun u => decide (u.vout ≠ utxo.vout) || decide (utxo.publicKeyHash ≠ u.publicKeyHash))
    { db with utxosByPkey := some (bucketPut b utxo.transactionID updated) }

/-- Go `deleteUTXO` (utxo.go): by public key, then by transaction id. -/
def deleteUTXO (db : DB) (utxo : UTXO) : DB :=
  deleteUTXOByTransactionID (deleteUTXOByPublicKey db utxo) utxo

/-- Go `deleteTransactionUTXOs` (utxo.go): for each input, fetch the
referenced UTXO and delete it.  The source dereferences the returned
pointer with no nil check; the `none` result models the nil-pointer
dereference reached when an input references no stored UTXO. -/
def deleteTransactionUTXOsLoop (db : DB) : Inputs → Option DB
  | [] => some db
  | input :: rest =>
    match getTransactionUTXO db input.transactionID input.vout with
    | none => none
    | some utxo => deleteTransactionUTXOsLoop (deleteUTXO db utxo) rest

/-- Go `deleteTransactionUTXOs` (utxo.go), the loop over the inputs of the
given transaction. -/
def deleteTransactionUTXOs (db : DB) (t : Transaction) : Option DB :=
  deleteTransactionUTXOsLoop db t.inputs

/-- Go `saveTransaction` (repository/transaction.go): creates the `ether`
bucket when missing and stores the transaction under its ID. -/
def saveTransaction (db : DB) (t : Transaction) : DB :=
  let b := db.ether.getD []
  { db with ether := some (bucketPut b t.id (newTX t)) }

/-- Go `deleteTransaction` (repository/transaction.go): deletes the
transaction ID from the `ether` bucket, no-op when the bucket is missing. -/
def deleteTransaction (db : DB) (t : Transaction) : DB :=
  match db.ether with
  | none => db
  | some b => { db with ether := some (bucketDelete b t.id) }

/-- Mempool read-back used to state claims: the stored transaction under an
ID, `none` when absent or when the `ether` bucket does not exist. -/
def getMempoolTx (db : DB) (id : Bytes) : Option StoredTx :=
  match db.ether with
  | none => none
  | some b => bucketGet b id

/-- Go `addBlock` (repository/blockchain.go): creates the `blocks` bucket
when missing, stores the block under its header hash, then stores the
header hash under the tip key `l`; returns the new tip. -/
def addBlock (db : DB) (block : Block) : DB × Bytes :=
  let b := db.blocks.getD []
  let b := bucketPut b block.header.hash (BlocksVal.blockVal block)
  let b := bucketPut b tipKey (BlocksVal.rawVal block.header.hash)
  ({ db with blocks := some b }, block.header.hash)

/-- Modelled from the spec: `saveUTXOS`, called by `AddBlock` but absent
from src, "saves new UTXOs" so that "new outputs appear in the UTXO
indices" — the behaviour of `saveUTXOs` (utxo.go), appending to both
indices. -/
def saveUTXOS (db : DB) (utxos : UTXOs) : DB :=
  saveUTXOs db utxos

/-- Go `AddBlock` (repository/blockchain.go): append the block, then for
each transaction of its body remove it from the mempool and save the UTXOs
of its outputs.  Returns the new tip. -/
def AddBlock (db : DB) (block : Block) : DB × Bytes :=
  let (db, tip) := addBlock db block
  let db := block.body.transactions.foldl
    (fun db t => saveUTXOS (deleteTransaction db t) t.UTXOs) db
  (db, tip)

/-! ## SHA-256 (crypto/sha256), over `Bytes`, all words mod 2^32 -/

namespace SHA256

/-- 2^32, the word modulus. -/
def M32 : Nat := 4294967296

/-- Addition mod 2^32. -/
def add32 (a b : Nat) : Nat := (a + b) % M32

/-- Right rotation of a 32-bit word. -/
def rotr (n x : Nat) : Nat := ((x >>> n) ||| (x <<< (32 - n))) % M32

/-- Bitwise complement of a 32-bit word. -/
def not32 (x : Nat) : Nat := Nat.xor x 4294967295

/-- The SHA-256 choice function. -/
def chf (e f g : Nat) : Nat := Nat.xor (Nat.land e f) (Nat.land (not32 e) g)

/-- The SHA-256 majority function. -/
def maj (a b c : Nat) : Nat :=
  Nat.xor (Nat.xor (Nat.land a b) (Nat.land a c)) (Nat.land b c)

/-- Big sigma 0. -/
def bs0 (x : Nat) : Nat := Nat.xor (Nat.xor (rotr 2 x) (rotr 13 x)) (rotr 22 x)

/-- Big sigma 1. -/
def bs1 (x : Nat) : Nat := Nat.xor (Nat.xor (rotr 6 x) (rotr 11 x)) (rotr 25 x)

/-- Small sigma 0. -/
def ss0 (x : Nat) : Nat := Nat.xor (Nat.xor (rotr 7 x) (rotr 18 x)) (x >>> 3)

/-- Small sigma 1. -/
def ss1 (x : Nat) : Nat := Nat.xor (Nat.xor (rotr 17 x) (rotr 19 x)) (x >>> 10)

/-- The 64 round constants of FIPS 180-4, written in decimal. -/
def K : List Nat :=
  [1116352408, 1899447441, 3049323471, 3921009573, 961987163,
   1508970993, 2453635748, 2870763221, 3624381080, 310598401,
   607225278, 1426881987, 1925078388, 2162078206, 2614888103,
   3248222580, 3835390401, 4022224774, 264347078, 604807628,
   770255983, 1249150122, 1555081692, 1996064986, 2554220882,
   2821834349, 2952996808, 3210313671, 3336571891, 3584528711,
   113926993, 338241895, 666307205, 773529912, 1294757372,
   1396182291, 1695183700, 1986661051, 2177026350, 2456956037,
   2730485921, 2820302411, 3259730800, 3345764771, 3516065817,
   3600352804, 4094571909, 275423344, 430227734, 506948616,
   659060556, 883997877, 958139571, 1322822218, 1537002063,
   1747873779, 1955562222, 2024104815, 2227730452, 2361852424,
   2428436474, 2756734187, 3204031479, 3329325298]

/-- The eight initial state words of FIPS 180-4, written in decimal. -/
def H0 : List Nat :=
  [1779033703, 3144134277, 1013904242, 2773480762,
   1359893119, 2600822924, 528734635, 1541459225]

/-- Big-endian bytes of a value, fixed width. -/
def toBytesBE : Nat → Nat → Bytes
  | 0, _ => []
  | n + 1, v => toBytesBE n (v / 256) ++ [v % 256]

/-- Group bytes into big-endian 32-bit words. -/
def bytesToWords : Bytes → List Nat
  | b0 :: b1 :: b2 :: b3 :: rest =>
    (((b0 * 256 + b1) * 256 + b2) * 256 + b3) :: bytesToWords rest
  | _ => []

/-- Standard SHA-256 padding: `0x80`, zeros, 64-bit big-endian bit length. -/
def padMessage (msg : Bytes) : Bytes :=
  let len := msg.length
  let zeros := (64 - (len + 9) % 64) % 64
  msg ++ [128] ++ List.replicate zeros 0 ++ toBytesBE 8 (len * 8)

/-- Cut the padded message into 16-word blocks (fuel = byte count). -/
def toBlocks : Nat → Bytes → List (List Nat)
  | 0, _ => []
  | _ + 1, [] => []
  | fuel + 1, msg => bytesToWords (msg.take 64) :: toBlocks fuel (msg.drop 64)

/-- Extend a 16-word block to the 64-word message schedule. -/
def extendSchedule : Nat → List Nat → List Nat
  | 0, w => w
  | n + 1, w =>
    let t := add32
      (add32 (ss1 (w.getD (w.length - 2) 0)) (w.getD (w.length - 7) 0))
      (add32 (ss0 (w.getD (w.length - 15) 0)) (w.getD (w.length - 16) 0))
    extendSchedule n (w ++ [t])

/-- One SHA-256 round on the eight working registers. -/
def round (regs : List Nat) (kw : Nat × Nat) : List Nat :=
  match regs with
  | [a, b, c, d, e, f, g, h] =>
    let t1 := add32 h (add32 (bs1 e) (add32 (chf e f g) (add32 kw.1 kw.2)))
    let t2 := add32 (bs0 a) (maj a b c)
    [add32 t1 t2, a, b, c, add32 d t1, e, f, g]
  | other => other

/-- Compress one block into the hash state. -/
def processBlock (h : List Nat) (block : List Nat) : List Nat :=
  let w := extendSchedule 48 block
  let regs := (K.zip w).foldl round h
  List.zipWith add32 h regs

/-- SHA-256 digest (32 bytes) of a byte string. -/
def sha256 (msg : Bytes) : Bytes :=
  let padded := padMessage msg
  let final := (toBlocks padded.length padded).foldl processBlock H0
  (final.map (toBytesBE 4)).flatten

end SHA256

/-! ## base64 (encoding/base64, StdEncoding) and the JSON canonical encoding -/

/-- The standard base64 alphabet. -/
def base64Chars : List Char :=
  "ABCDEFGHIJKLMNOPQRSTUVWXYZabcdefghijklmnopqrstuvwxyz0123456789+/".toList

/-- Character of a 6-bit group. -/
def b64Char (n : Nat) : Char := base64Chars.getD n 'A'

/-- Go `base64.StdEncoding.EncodeToString`, with `=` padding. -/
def base64Encode : Bytes → String
  | b0 :: b1 :: b2 :: rest =>
    String.mk [b64Char (b0 / 4), b64Char (b0 % 4 * 16 + b1 / 16),
               b64Char (b1 % 16 * 4 + b2 / 64), b64Char (b2 % 64)] ++ base64Encode rest
  | [b0, b1] =>
    String.mk [b64Char (b0 / 4), b64Char (b0 % 4 * 16 + b1 / 16), b64Char (b1 % 16 * 4), '=']
  | [b0] => String.mk [b64Char (b0 / 4), b64Char (b0 % 4 * 16), '=', '=']
  | [] => ""

/-- Escaping of one character inside a Go JSON string value
(`encoding/json` escapes the quote, the backslash and, by default, the
HTML-sensitive characters; control characters do not occur in the strings
this program encodes). -/
def jsonEscapeChar (c : Char) : String :=
  if c = '"' then "\\\""
  else if c = '\\' then "\\\\"
  else if c = '<' then "\\u003c"
  else if c = '>' then "\\u003e"
  else if c = '&' then "\\u0026"
  else String.singleton c

/-- Go JSON encoding of a string value. -/
def goString (s : String) : String :=
  "\"" ++ String.join (s.toList.map jsonEscapeChar) ++ "\""

/-- Go JSON encoding of a `[]byte` value: a base64 string. -/
def jsonBytes (b : Bytes) : String := "\"" ++ base64Encode b ++ "\""

/-- Go JSON encoding of an integer. -/
def jsonInt (i : Int) : String := toString i

/-- JSON array from encoded elements. -/
def jsonArray (elems : List String) : String :=
  "[" ++ String.intercalate "," elems ++ "]"

/-- UTF-8 bytes of an ASCII string (every string this program hashes or
signs is ASCII JSON). -/
def strBytes (s : String) : Bytes := s.toList.map Char.toNat

/-- Modelled from the spec ("canonical encoding is a fixed, field-ordered
serialization"): the JSON object for one `Input`.  The file declaring
`Input` with its JSON tags is absent from src; the field set is the one
src uses and the tag names follow the sibling struct
`repository.transactionInput`. -/
def encodeInput (i : Input) : String :=
  "\x7b\"transactionId\":" ++ jsonBytes i.transactionID ++
  ",\"vout\":" ++ jsonInt i.vout ++
  ",\"publicKeyHash\":" ++ jsonBytes i.publicKeyHash ++
  ",\"signature\":" ++ jsonBytes i.signature ++
  ",\"verifier\":" ++ jsonBytes i.verifier ++ "\x7d"

/-- Go `json.Marshal` of one `Output`: the struct is declared in src
(transaction/output.go) with no JSON tags and no custom marshaler, so the
keys are the field names `Value` and `PublicKeyHash`, in declaration
order. -/
def encodeOutput (o : Output) : String :=
  "\x7b\"Value\":" ++ jsonInt o.value ++
  ",\"PublicKeyHash\":" ++ jsonBytes o.publicKeyHash ++ "\x7d"

/-- Go `json.Marshal` of the `hashable` struct (transaction.go): keys
`inputs`, `outputs`, `timestamp` in declaration order; the timestamp field
is never set by `newID`, so it is the zero value `0`. -/
def hashableEncode (inputs : Inputs) (outputs : Outputs) : String :=
  "\x7b\"inputs\":" ++ jsonArray (inputs.map encodeInput) ++
  ",\"outputs\":" ++ jsonArray (outputs.map encodeOutput) ++
  ",\"timestamp\":0\x7d"

/-- Go `hash` (transaction.go): SHA-256 of the JSON serialization. -/
def hashJSON (raw : String) : Bytes := SHA256.sha256 (strBytes raw)

/-- Go `newID` (transaction.go): hash of `hashable` built from the inputs
and outputs only. -/
def newID (inputs : Inputs) (outputs : Outputs) : Bytes :=
  hashJSON (hashableEncode inputs outputs)

/-- Go `NewTransaction` (transaction.go).  `time.Now().Unix()` is the
parameter `ts`; the serialization error path cannot occur and is modelled
away. -/
def NewTransaction (inputs : Inputs) (outputs : Outputs) (ts : Int) : Transaction :=
  { id := newID inputs outputs, inputs := inputs, outputs := outputs, timestamp := ts }

/-! ## Stake transactions, votes and verification (transaction.go, repository/transaction.go) -/

/-- Wallet: the public key plus its hash (`wallet.Wallet.PublicKeyHash()`
is external crypto, carried as a field). -/
structure Wallet where
  publicKey : Bytes
  publicKeyHash : Bytes
deriving DecidableEq, Repr

/-- Error of `NewStakeTransaction` (`ErrCantForge`). -/
inductive StakeErr where
  | cantForge
deriving DecidableEq, Repr

/-- The input-accumulation loop of Go `NewStakeTransaction`: running sum of
consumed values, one signed input per consumed UTXO, `break` as soon as the
sum reaches the target.  `signer.SignRaw` is the total parameter `signer`
(its error path only propagates a signing failure). -/
def stakeLoop (signer : Signable → Bytes) (stakeCreator : Wallet) (stakeholder : Bytes)
    (target : Int) : UTXOs → Int → Inputs → Int × Inputs
  | [], sum, inputs => (sum, inputs)
  | utxo :: rest, sum, inputs =>
    let sum := sum + utxo.value
    let signature := signer (Signable.mk stakeholder stakeCreator.publicKeyHash utxo.value)
    let inputs := inputs ++
      [Input.mk utxo.transactionID utxo.vout stakeCreator.publicKeyHash signature
        stakeCreator.publicKey]
    if sum ≥ target then (sum, inputs)
    else stakeLoop signer stakeCreator stakeholder target rest sum inputs

/-- Go `NewStakeTransaction` (transaction.go).  `getUTXOs` is total (its
error path only propagates a storage failure); Go integer division
truncates toward zero, `Int.tdiv`. -/
def NewStakeTransaction (getUTXOs : Bytes → UTXOs) (signer : Signable → Bytes)
    (stakeCreator : Wallet) (stakeholder : Bytes) (ts : Int) : Except StakeErr Transaction :=
  let utxos := getUTXOs stakeCreator.publicKeyHash
  let target := Int.tdiv utxos.Sum 2
  if target < Int.tdiv VoteValue 2 then .error .cantForge
  else
    let (sum, inputs) := stakeLoop signer stakeCreator stakeholder target utxos 0 []
    let outputs := [Output.mk target stakeholder] ++
      (if sum > target then [Output.mk (sum - target) stakeCreator.publicKeyHash] else [])
    .ok (NewTransaction inputs outputs ts)

/-- Error of `CastVote` (`ErrInsufficientVotes`). -/
inductive VoteErr where
  | insufficientVotes
deriving DecidableEq, Repr

/-- Modelled from the spec: `getUTXOs` called by `repository.CastVote` is
absent from src; per the spec `CastVote` "selects the first UTXO of from",
so it reads the UTXO set of the given key hash — the read performed by
`getUTXOsByPublicKey`. -/
def getUTXOs (db : DB) (publicKeyHash : Bytes) : UTXOs :=
  getUTXOsByPublicKey db publicKeyHash

/-- Go `repository.CastVote`: `InsufficientVotes` when the UTXO set of
`fromKey` is empty, otherwise the transaction built from the first UTXO —
one input referencing it (the `Verifier` field is left at its zero value)
and one output of value 1 to `toKey`, plus a change output of
`value - 1` back to `fromKey` when the consumed value exceeds 1.  The
persistence that follows the construction (`overwriteUTXOs` — absent from
src —, `saveTransaction`, `saveUTXOs`) does not alter the constructed
transaction, which is what is modelled here. -/
def CastVote (db : DB) (fromKey toKey signature : Bytes) (ts : Int) :
    Except VoteErr Transaction :=
  match getUTXOs db fromKey with
  | [] => .error .insufficientVotes
  | usedUTXO :: _ =>
    let inputs := [Input.mk usedUTXO.transactionID usedUTXO.vout fromKey signature []]
    let outputs := [Output.mk 1 toKey] ++
      (if usedUTXO.value > 1 then [Output.mk (usedUTXO.value - 1) fromKey] else [])
    .ok (NewTransaction inputs outputs ts)

/-- Signature-verification callback (`wallet.VerifierFn`): payload, base64
signature, base64 public key.  The Go callback also returns an error; an
error makes `VerifyTransactions` answer false exactly as `ok = false`
does, so the callback is modelled boolean. -/
abbrev VerifierFn := Signable → String → String → Bool

/-- The per-input loop of Go `VerifyTransactions` (transaction.go): find
the first output whose recipient differs from the input, fetch the
referenced UTXO (a lookup error or a nil result answers false), then call
the verifier on the signing payload and the base64-encoded signature and
public key. -/
def verifyInputsLoop (getTxUTXO : Bytes → Int → Option UTXO) (verifier : VerifierFn)
    (outputs : Outputs) : Inputs → Bool
  | [] => true
  | input :: rest =>
    match outputs.Find (fun o => decide (o.publicKeyHash ≠ input.publicKeyHash)) with
    | none => false
    | some receiver =>
      match getTxUTXO input.transactionID input.vout with
      | none => false
      | some utxo =>
        if verifier (Signable.mk receiver.publicKeyHash input.publicKeyHash utxo.value)
            (base64Encode input.signature) (base64Encode input.verifier)
        then verifyInputsLoop getTxUTXO verifier outputs rest
        else false

/-- Go `VerifyTransactions` (transaction.go): true when every input passes
the loop above. -/
def VerifyTransactions (getTxUTXO : Bytes → Int → Option UTXO) (verifier : VerifierFn)
    (t : Transaction) : Bool :=
  verifyInputsLoop getTxUTXO verifier t.outputs t.inputs

/-- Modelled from the spec: `wallet.VerifySignature` (the wallet package is
absent from src) is the verifier wired into `VerifyTransactions` in
cmd/alfa/main.go.  Per the spec, verification rejects "if signature does
not verify the signing payload above, or if the Verifier does not hash to
input.PublicKeyHash": the ECDSA check `sigOk` and the public-key digest
`hashPub` are abstract parameters over the base64-encoded arguments the
caller passes, and the payload carries `input.PublicKeyHash` as its
sender. -/
def VerifySignature (sigOk : Signable → String → String → Bool)
    (hashPub : String → Bytes) : VerifierFn :=
  fun s signature pKey => sigOk s signature pKey && decide (hashPub pKey = s.sender)

/-! ## Websocket envelopes (websocket part of src/cmd/alfa) -/

/-- Message codes (`websocket.Message`, `iota + 1`). -/
def GetBlockchainHeightMessage : Nat := 1

/-- Message code `close-connection`. -/
def CloseConnectionMessage : Nat := 2

/-- Message code `get-missing-blocks`. -/
def GetMissingBlocksMessage : Nat := 3

/-- Message code `get-block`. -/
def GetBlockMessage : Nat := 4

/-- Message code `register`. -/
def RegisterMessage : Nat := 5

/-- Message code `error`. -/
def ErrorMessage : Nat := 6

/-- Message code `response`. -/
def ResponseMessage : Nat := 7

/-- Message code `transaction-received`. -/
def TransactionReceivedMessage : Nat := 8

/-- Message code `no-action`. -/
def NoActionMessage : Nat := 9

/-- Message code `forge-block`. -/
def ForgeBlockMessage : Nat := 10

/-- Message code `block-forged`. -/
def BlockForgedMessage : Nat := 11

/-- Message code `disconnect`. -/
def DisconnectMessage : Nat := 12

/-- Request envelope (`websocket.Ping`).  `Body` is a `json.RawMessage`,
carried as the raw compact JSON text; `Message` is the integer code. -/
structure Ping where
  message : Nat
  body : String
  signature : String
  sender : String
deriving DecidableEq, Repr

/-- Response envelope (`websocket.Pong`).  `Body` has interface type; it is
carried as its JSON encoding, `none` for the nil interface (encoded
`null`). -/
structure Pong where
  message : Nat
  body : Option String
  signature : String
  sender : String
deriving DecidableEq, Repr

/-- Go `NewNoActionPong`. -/
def NewNoActionPong : Pong := { message := NoActionMessage, body := none, signature := "", sender := "" }

/-- Go `NewDisconnectPong`. -/
def NewDisconnectPong : Pong := { message := DisconnectMessage, body := none, signature := "", sender := "" }

/-- One field of a Go struct as `encoding/json` sees it: tag name, encoded
value, whether the tag carries `omitempty`, and whether the field holds its
zero value. -/
structure JField where
  name : String
  value : String
  omitEmpty : Bool
  isEmpty : Bool
deriving Repr

/-- Comma-separated join of already-encoded JSON members. -/
def commaJoin : List String → String
  | [] => ""
  | [s] => s
  | s :: rest => s ++ "," ++ commaJoin rest

/-- Go `json.Marshal` of a struct: the fields in declaration order, those
with `omitempty` dropped when empty, each written `"name":value`, joined
with commas inside braces. -/
def marshalFields (fields : List JField) : String :=
  "\x7b" ++ commaJoin
    ((fields.filter (fun f => !(f.omitEmpty && f.isEmpty))).map
      (fun f => "\"" ++ f.name ++ "\":" ++ f.value)) ++ "\x7d"

/-- Go `Ping.Signable` (main.go websocket part): marshal of `signablePing`,
whose fields are declared `Body` (tag `body`), `Sender` (tag
`sender,omitempty`), `Message` (tag `message,omitempty`).  A
`json.RawMessage` body marshals as its own (compact) text. -/
def Ping.Signable (p : Ping) : String :=
  marshalFields
    [⟨"body", p.body, false, p.body = ""⟩,
     ⟨"sender", goString p.sender, true, p.sender = ""⟩,
     ⟨"message", toString p.message, true, p.message = 0⟩]

/-- Go `Pong.Signable` (main.go websocket part): marshal of `signablePong`,
whose fields are declared `Body` (tag `body`), `Sender` (tag
`sender,omitempty`), `Message` (tag `message`, no `omitempty`).  A nil
interface body marshals as `null`. -/
def Pong.Signable (p : Pong) : String :=
  marshalFields
    [⟨"body", p.body.getD "null", false, false⟩,
     ⟨"sender", goString p.sender, true, p.sender = ""⟩,
     ⟨"message", toString p.message, false, p.message = 0⟩]

/-! ## The BlockForged handler (src/internal/pkg/transaction/output.go, handlers part) -/

/-- Outcome of `AddNewBlock`: modelled from the spec, it either succeeds,
fails with `blockchain.ErrInvalidBlock`, or fails with some other
(storage) error. -/
inductive AddBlockErr where
  | invalidBlock
  | other
deriving DecidableEq, Repr

/-- Parsed body of a block-forged message (`blockForgedBody`). -/
structure BlockForgedBody where
  height : Int
  block : Block
deriving Repr

/-- Error results of the handler (returned as Go errors, not Pongs). -/
inductive HandlerErr where
  | heightTooLow
  | addBlockFailed
deriving DecidableEq, Repr

/-- Modelled from the spec: `blockchain.GetHeight` (absent from src) is
"`GetBlock(GetTip()).Height` or `-1` if empty". -/
def GetHeight (getTip : Option Bytes) (getBlock : Bytes → Option Block) : Int :=
  match getTip with
  | none => -1
  | some tip =>
    match getBlock tip with
    | none => -1
    | some b => b.header.height

/-- Go `BlockForged` (handlers, output.go): with the body already parsed
(the claim quantifies over messages whose body parses), the handler
rejects with an error when the local height is more than one behind the
received height, replies with a disconnect Pong when `verifyBlock` fails,
then calls `addNewBlock`: `ErrInvalidBlock` also yields a disconnect Pong,
any other error propagates, success yields a no-action Pong. -/
def BlockForged (getTip : Option Bytes) (getBlock : Bytes → Option Block)
    (verifyBlock : Block → Bool) (addNewBlock : Block → Option AddBlockErr)
    (body : BlockForgedBody) : Except HandlerErr Pong :=
  let height := GetHeight getTip getBlock
  if height + 1 < body.height then .error .heightTooLow
  else if !verifyBlock body.block then .ok NewDisconnectPong
  else
    match addNewBlock body.block with
    | some .invalidBlock => .ok NewDisconnectPong
    | some .other => .error .addBlockFailed
    | none => .ok NewNoActionPong

/-! ## Chain reads (repository/blockchain.go) -/

/-- Go `GetTip` (repository/blockchain.go): the bytes stored in the blocks
bucket under the reserved key `l`, nil when the bucket is missing. -/
def GetTip (db : DB) : Option Bytes :=
  match db.blocks with
  | none => none
  | some b =>
    match bucketGet b tipKey with
    | some (BlocksVal.rawVal h) => some h
    | _ => none

/-- Go `GetBlock` (repository/blockchain.go): the block stored under the
given hash; `none` models both the nil result for a missing key and the
error for a missing bucket. -/
def GetBlock (db : DB) (hash : Bytes) : Option Block :=
  match db.blocks with
  | none => none
  | some b =>
    match bucketGet b hash with
    | some (BlocksVal.blockVal bl) => some bl
    | _ => none

/-! ## Spec-side definitions used to state the claims -/

/-- Shortest prefix of the UTXO list whose running sum, started at `acc`,
reaches the target (the whole list when it never does); states the
input-selection rule of the stake claim. -/
def takeUntilSum (target : Int) : Int → UTXOs → UTXOs
  | _, [] => []
  | acc, u :: rest =>
    u :: (if acc + u.value ≥ target then [] else takeUntilSum target (acc + u.value) rest)

/-- The input `NewStakeTransaction` builds for one consumed UTXO. -/
def stakeInput (signer : Signable → Bytes) (stakeCreator : Wallet) (stakeholder : Bytes)
    (u : UTXO) : Input :=
  Input.mk u.transactionID u.vout stakeCreator.publicKeyHash
    (signer (Signable.mk stakeholder stakeCreator.publicKeyHash u.value))
    stakeCreator.publicKey

/-- The envelope encoding claim C3 describes: object keys in the order
`body, message, sender`, signature omitted. -/
def claimedSignableEncoding (bodyJSON : String) (message : Nat) (sender : String) : String :=
  "\x7b\"body\":" ++ bodyJSON ++ ",\"message\":" ++ toString message ++
  ",\"sender\":" ++ goString sender ++ "\x7d"

/-- The signing payload the code produces for a `Ping`: keys in the order
`body, sender, message`, the sender omitted when empty and the message
omitted when zero. -/
def pingSignableSpec (p : Ping) : String :=
  "\x7b" ++ commaJoin
    (["\"body\":" ++ p.body] ++
     (if p.sender = "" then [] else ["\"sender\":" ++ goString p.sender]) ++
     (if p.message = 0 then [] else ["\"message\":" ++ toString p.message])) ++ "\x7d"

/-- The signing payload the code produces for a `Pong`: keys in the order
`body, sender, message`, the sender omitted when empty, the message always
present. -/
def pongSignableSpec (p : Pong) : String :=
  "\x7b" ++ commaJoin
    (["\"body\":" ++ p.body.getD "null"] ++
     (if p.sender = "" then [] else ["\"sender\":" ++ goString p.sender]) ++
     ["\"message\":" ++ toString p.message]) ++ "\x7d"

/-! ## Concrete inputs used by counterexamples and witnesses -/

/-- Ping with every field set, for the C3 counterexample. -/
def pingEx : Ping :=
  { message := RegisterMessage, body := "1", signature := "c2ln", sender := "QQ==" }

/-- UTXO present in both indices, for the C2 failing input. -/
def utxoEx : UTXO := { transactionID := [1], publicKeyHash := [2], value := 3, vout := 0 }

/-- Database holding `utxoEx` in both indices, keyed as the code keys them. -/
def dbEx : DB :=
  { blocks := none, ether := none,
    utxosByPkey := some [([2], [utxoEx])], utxosByTx := some [([1], [utxoEx])] }

/-- Empty block at height 5, for the C8 counterexample. -/
def blockEx : Block :=
  { header := { hash := [], prevHash := [], height := 5, timestamp := 0,
                forgerPublicKeyHash := [] },
    body := { transactions := [] } }

/-- Block-forged body far ahead of an empty chain, for the C8 counterexample. -/
def bodyEx : BlockForgedBody := { height := 5, block := blockEx }

/-- Block-forged body at height 0, for the C8 witness. -/
def bodyWitness : BlockForgedBody := { height := 0, block := blockEx }

/-- One-output transaction, for the C7 witness. -/
def txW : Transaction :=
  { id := [5], inputs := [], outputs := [Output.mk 7 [9]], timestamp := 0 }

/-- Block carrying `txW`, for the C7 witness. -/
def blockW : Block :=
  { header := { hash := [170], prevHash := [], height := 1, timestamp := 0,
                forgerPublicKeyHash := [] },
    body := { transactions := [txW] } }

/-- Fresh database (no bucket yet), for the C7 witness. -/
def dbW : DB := { blocks := none, ether := none, utxosByPkey := none, utxosByTx := none }

/-! ## Bucket lemmas -/

theorem bucketGet_put_self {α : Type} (b : BBucket α) (k : Bytes) (v : α) :
    bucketGet (bucketPut b k v) k = some v := by
  simp [bucketGet, bucketPut]

theorem find?_congr_pred {α : Type} (p q : α → Bool) (l : List α)
    (h : ∀ a, p a = q a) : l.find? p = l.find? q := by
  induction l with
  | nil => rfl
  | cons a rest ih => rw [List.find?_cons, List.find?_cons, h a, ih]

theorem find?_key_filter {α : Type} (b : BBucket α) (k k' : Bytes) (h : k' ≠ k) :
    (b.filter (fun p => decide (p.1 ≠ k))).find? (fun p => decide (p.1 = k')) =
      b.find? (fun p => decide (p.1 = k')) := by
  induction b with
  | nil => rfl
  | cons a rest ih =>
    rw [List.filter_cons]
    by_cases hk : a.1 = k
    · have h1 : decide (a.1 ≠ k) = false := by simp [hk]
      have h2 : decide (a.1 = k') = false := by
        simp only [decide_eq_false_iff_not]
        intro hc
        exact h (by rw [← hc, hk])
      rw [h1, if_neg (by simp), List.find?_cons, h2, ih]
    · have h1 : decide (a.1 ≠ k) = true := by simp [hk]
      rw [h1, if_pos rfl, List.find?_cons, List.find?_cons]
      cases hq : decide (a.1 = k') with
      | true => rfl
      | false => exact ih

theorem bucketGet_put_other {α : Type} (b : BBucket α) (k k' : Bytes) (v : α) (h : k' ≠ k) :
    bucketGet (bucketPut b k v) k' = bucketGet b k' := by
  have hne : decide (k = k') = false := by
    simp only [decide_eq_false_iff_not]
    exact fun hc => h hc.symm
  unfold bucketGet bucketPut
  rw [List.find?_cons]
  simp only [hne]
  rw [find?_key_filter b k k' h]

theorem bucketGet_delete_self {α : Type} (b : BBucket α) (k : Bytes) :
    bucketGet (bucketDelete b k) k = none := by
  simp only [bucketGet, bucketDelete]
  rw [List.find?_eq_none.2]
  · rfl
  · intro p hp
    have := (List.mem_filter.1 hp).2
    simpa using this

/-! ## Claim C6: transaction identity -/

/-- C6: the ID of `NewTransaction inputs outputs` is the SHA-256 digest of
the canonical JSON encoding built from the inputs and outputs alone (the
hashed record carries a constant zero timestamp), so two calls with the
same inputs and outputs give the same ID and the ID does not depend on the
transaction timestamp. -/
theorem newTransaction_id_canonical (inputs : Inputs) (outputs : Outputs) (t1 t2 : Int) :
    (NewTransaction inputs outputs t1).id
      = SHA256.sha256 (strBytes (hashableEncode inputs outputs)) ∧
    (NewTransaction inputs outputs t1).id = (NewTransaction inputs outputs t2).id :=
  ⟨rfl, rfl⟩

/-! ## Claim C5: CastVote -/

/-- C5: `CastVote` fails with `InsufficientVotes` exactly when no UTXO
exists for the voter; otherwise it consumes exactly the first UTXO of the
voter and produces one output of value 1 to the recipient plus, exactly
when the consumed value exceeds 1, a change output of `value - 1` back to
the voter. -/
theorem castVote_spec (db : DB) (fromKey toKey signature : Bytes) (ts : Int) :
    (CastVote db fromKey toKey signature ts = .error .insufficientVotes ↔
      getUTXOsByPublicKey db fromKey = []) ∧
    (∀ u rest, getUTXOsByPublicKey db fromKey = u :: rest →
      CastVote db fromKey toKey signature ts = .ok (NewTransaction
        [Input.mk u.transactionID u.vout fromKey signature []]
        ([Output.mk 1 toKey] ++
          (if u.value > 1 then [Output.mk (u.value - 1) fromKey] else []))
        ts)) := by
  constructor
  · cases h : getUTXOsByPublicKey db fromKey with
    | nil => simp [CastVote, getUTXOs, h]
    | cons u rest => simp [CastVote, getUTXOs, h]
  · intro u rest h
    simp [CastVote, getUTXOs, h]

/-! ## Claim C9: deleteUTXOByPublicKey filters by transaction ID only -/

/-- C9: the by-pkey half of the delete filters the stored list of the
owner by transaction ID only — after the call the list under
`u.PublicKeyHash` is the old list minus every UTXO with `u`'s transaction
ID, so every sibling output of the same transaction owned by the same key
hash is deleted too, regardless of `Vout`. -/
theorem deleteUTXOByPublicKey_filters_by_txid (db : DB) (u : UTXO) :
    getUTXOsByPublicKey (deleteUTXOByPublicKey db u) u.publicKeyHash
      = (getUTXOsByPublicKey db u.publicKeyHash).Filter
          (fun v => decide (u.transactionID ≠ v.transactionID)) ∧
    (∀ v, v.transactionID = u.transactionID →
      v ∉ getUTXOsByPublicKey (deleteUTXOByPublicKey db u) u.publicKeyHash) := by
  have heq : getUTXOsByPublicKey (deleteUTXOByPublicKey db u) u.publicKeyHash
      = (getUTXOsByPublicKey db u.publicKeyHash).Filter
          (fun v => decide (u.transactionID ≠ v.transactionID)) := by
    cases hdb : db.utxosByPkey with
    | none => simp [deleteUTXOByPublicKey, getUTXOsByPublicKey, hdb, UTXOs.Filter]
    | some b =>
      simp [deleteUTXOByPublicKey, getUTXOsByPublicKey, hdb, bucketGet_put_self]
  refine ⟨heq, ?_⟩
  intro v hv hmem
  rw [heq] at hmem
  have := List.of_mem_filter hmem
  simp [hv] at this

/-! ## Claim C2: deleteUTXO and the two indices -/

/-- C2 (failing input): on a database holding `utxoEx` in both indices,
`deleteUTXO` removes it from the by-pkey index but not from the by-tx
index — the by-tx half of the delete writes into the by-pkey bucket
(under the transaction-ID key) instead — so the consistency invariant
between the two indices is broken and the UTXO stays spendable through
`getTransactionUTXO`. -/
theorem deleteUTXO_wrong_bucket :
    getUTXOsByPublicKey (deleteUTXO dbEx utxoEx) utxoEx.publicKeyHash = [] ∧
    getUTXOByTransactionID (deleteUTXO dbEx utxoEx) utxoEx.transactionID = [utxoEx] ∧
    bucketGet ((deleteUTXO dbEx utxoEx).utxosByPkey.getD []) utxoEx.transactionID
      = some [] := by
  decide

/-! ## Claim C10: deleteTransactionUTXOs and the missing nil check -/

theorem deleteUTXOByPublicKey_utxosByTx (db : DB) (u : UTXO) :
    (deleteUTXOByPublicKey db u).utxosByTx = db.utxosByTx := by
  cases hdb : db.utxosByPkey <;> simp [deleteUTXOByPublicKey, hdb]

theorem deleteUTXO_utxosByTx (db : DB) (u : UTXO) :
    (deleteUTXO db u).utxosByTx = db.utxosByTx := by
  unfold deleteUTXO
  cases hdb : (deleteUTXOByPublicKey db u).utxosByPkey <;>
    simp [deleteUTXOByTransactionID, hdb, deleteUTXOByPublicKey_utxosByTx]

theorem getTransactionUTXO_deleteUTXO (db : DB) (u : UTXO) (id : Bytes) (vout : Int) :
    getTransactionUTXO (deleteUTXO db u) id vout = getTransactionUTXO db id vout := by
  unfold getTransactionUTXO getUTXOByTransactionID
  rw [deleteUTXO_utxosByTx]

theorem deleteTransactionUTXOsLoop_none_iff (inputs : Inputs) : ∀ db : DB,
    deleteTransactionUTXOsLoop db inputs = none ↔
      ∃ input ∈ inputs, getTransactionUTXO db input.transactionID input.vout = none := by
  induction inputs with
  | nil => intro db; simp [deleteTransactionUTXOsLoop]
  | cons i rest ih =>
    intro db
    simp only [deleteTransactionUTXOsLoop]
    cases hg : getTransactionUTXO db i.transactionID i.vout with
    | none =>
      exact iff_of_true rfl ⟨i, List.mem_cons_self i rest, hg⟩
    | some u =>
      rw [ih (deleteUTXO db u)]
      simp only [getTransactionUTXO_deleteUTXO]
      constructor
      · rintro ⟨input, hmem, hnone⟩
        exact ⟨input, List.mem_cons_of_mem i hmem, hnone⟩
      · rintro ⟨input, hmem, hnone⟩
        rcases List.mem_cons.1 hmem with he | hm
        · rw [he, hg] at hnone
          exact Option.noConfusion hnone
        · exact ⟨input, hm, hnone⟩

/-- C10: `deleteTransactionUTXOs` reaches the unchecked pointer dereference
(modelled `none`) exactly when some input of the transaction references a
UTXO absent from the by-tx index; it is free of the nil dereference
precisely under the precondition that every input references a stored
UTXO. -/
theorem deleteTransactionUTXOs_none_iff (db : DB) (t : Transaction) :
    deleteTransactionUTXOs db t = none ↔
      ∃ input ∈ t.inputs, getTransactionUTXO db input.transactionID input.vout = none := by
  exact deleteTransactionUTXOsLoop_none_iff t.inputs db

/-! ## Claim C3: envelope signing payload -/

/-- C3 counterexample: on a Ping with every field set, the signing payload
is not the claimed `body, message, sender` ordering — the sender key comes
before the message key. -/
theorem signable_key_order_counterexample :
    Ping.Signable pingEx ≠ claimedSignableEncoding pingEx.body pingEx.message pingEx.sender := by
  decide

/-- C3 amended: for every Ping and Pong, `Signable()` is the UTF-8 JSON
encoding of the envelope with the signature omitted and the remaining keys
in the order `body, sender, message` (the declaration order of the
signable structs) — the sender key omitted when the sender is empty, and
the Ping message key omitted when the message code is zero. -/
theorem signable_key_order (p : Ping) (q : Pong) :
    Ping.Signable p = pingSignableSpec p ∧ Pong.Signable q = pongSignableSpec q := by
  constructor
  · by_cases hs : p.sender = "" <;> by_cases hm : p.message = 0 <;>
      simp [Ping.Signable, pingSignableSpec, marshalFields, commaJoin, hs, hm]
  · by_cases hs : q.sender = "" <;>
      simp [Pong.Signable, pongSignableSpec, marshalFields, commaJoin, hs]

/-! ## Claim C8: the BlockForged handler -/

/-- C8 counterexample: when the local chain is empty (height -1) and the
received body claims height 5, the handler returns the height error even
though the block fails verification — it does not reply with a disconnect
Pong, contradicting the claim as stated. -/
theorem blockForged_counterexample :
    (fun _ => false : Block → Bool) bodyEx.block = false ∧
    BlockForged none (fun _ => none) (fun _ => false) (fun _ => none) bodyEx
      = .error .heightTooLow ∧
    BlockForged none (fun _ => none) (fun _ => false) (fun _ => none) bodyEx
      ≠ .ok NewDisconnectPong := by
  refine ⟨rfl, rfl, ?_⟩
  intro h
  rw [show BlockForged none (fun _ => none) (fun _ => false) (fun _ => none) bodyEx
      = Except.error HandlerErr.heightTooLow from rfl] at h
  exact Except.noConfusion h

/-- C8 amended: for a block-forged message whose body parses and whose
height is not ahead of the local chain by more than one, the handler
replies with a disconnect Pong exactly when the block fails `VerifyBlock`
or `AddNewBlock` returns `InvalidBlock` (the error is not propagated), and
with a no-action Pong exactly when the block verifies and `AddNewBlock`
succeeds. -/
theorem blockForged_replies (getTip : Option Bytes) (getBlock : Bytes → Option Block)
    (verifyBlock : Block → Bool) (addNewBlock : Block → Option AddBlockErr)
    (body : BlockForgedBody)
    (h : body.height ≤ GetHeight getTip getBlock + 1) :
    (BlockForged getTip getBlock verifyBlock addNewBlock body = .ok NewDisconnectPong ↔
      verifyBlock body.block = false ∨ addNewBlock body.block = some .invalidBlock) ∧
    (BlockForged getTip getBlock verifyBlock addNewBlock body = .ok NewNoActionPong ↔
      verifyBlock body.block = true ∧ addNewBlock body.block = none) := by
  have hlt : ¬ (GetHeight getTip getBlock + 1 < body.height) := by omega
  unfold BlockForged
  rw [if_neg hlt]
  cases hv : verifyBlock body.block with
  | false =>
    simp [NewNoActionPong, NewDisconnectPong, NoActionMessage, DisconnectMessage]
  | true =>
    cases ha : addNewBlock body.block with
    | none => simp [NewNoActionPong, NewDisconnectPong, NoActionMessage, DisconnectMessage]
    | some e =>
      cases e <;> simp [NewNoActionPong, NewDisconnectPong, NoActionMessage, DisconnectMessage]

/-- Witness for the amended C8 at a concrete input: empty chain, received
height 0, a verifier that accepts and an append that succeeds — the
handler replies with the no-action Pong and not with the disconnect
Pong. -/
theorem blockForged_replies_witness :
    (BlockForged none (fun _ => none) (fun _ => true) (fun _ => none) bodyWitness
        = .ok NewDisconnectPong ↔
      (fun _ => true : Block → Bool) bodyWitness.block = false ∨
        (fun _ => none : Block → Option AddBlockErr) bodyWitness.block = some .invalidBlock) ∧
    (BlockForged none (fun _ => none) (fun _ => true) (fun _ => none) bodyWitness
        = .ok NewNoActionPong ↔
      (fun _ => true : Block → Bool) bodyWitness.block = true ∧
        (fun _ => none : Block → Option AddBlockErr) bodyWitness.block = none) :=
  blockForged_replies none (fun _ => none) (fun _ => true) (fun _ => none) bodyWitness
    (by decide)

/-! ## Claim C1: transaction verification -/

theorem verifyInputsLoop_iff (getTxUTXO : Bytes → Int → Option UTXO)
    (sigOk : Signable → String → String → Bool) (hashPub : String → Bytes)
    (outputs : Outputs) (inputs : Inputs) :
    verifyInputsLoop getTxUTXO (VerifySignature sigOk hashPub) outputs inputs = true ↔
      ∀ input ∈ inputs, ∃ receiver utxo,
        outputs.Find (fun o => decide (o.publicKeyHash ≠ input.publicKeyHash)) = some receiver ∧
        getTxUTXO input.transactionID input.vout = some utxo ∧
        sigOk (Signable.mk receiver.publicKeyHash input.publicKeyHash utxo.value)
          (base64Encode input.signature) (base64Encode input.verifier) = true ∧
        hashPub (base64Encode input.verifier) = input.publicKeyHash := by
  induction inputs with
  | nil => simp [verifyInputsLoop]
  | cons i rest ih =>
    simp only [verifyInputsLoop]
    split
    next hf =>
      apply iff_of_false (by simp)
      intro hall
      obtain ⟨r, u, hr, _⟩ := hall i (List.mem_cons_self i rest)
      rw [hf] at hr
      exact Option.noConfusion hr
    next receiver hf =>
      split
      next hg =>
        apply iff_of_false (by simp)
        intro hall
        obtain ⟨r, u, hr, hu, _⟩ := hall i (List.mem_cons_self i rest)
        rw [hg] at hu
        exact Option.noConfusion hu
      next utxo hg =>
        by_cases hb : VerifySignature sigOk hashPub
            (Signable.mk receiver.publicKeyHash i.publicKeyHash utxo.value)
            (base64Encode i.signature) (base64Encode i.verifier) = true
        · rw [if_pos hb, ih]
          have hb' : sigOk (Signable.mk receiver.publicKeyHash i.publicKeyHash utxo.value)
                (base64Encode i.signature) (base64Encode i.verifier) = true ∧
              hashPub (base64Encode i.verifier) = i.publicKeyHash := by
            have h2 := hb
            unfold VerifySignature at h2
            simpa using h2
          constructor
          · intro hrest input hmem
            rcases List.mem_cons.1 hmem with he | hm
            · rw [he]
              exact ⟨receiver, utxo, hf, hg, hb'.1, hb'.2⟩
            · exact hrest input hm
          · intro hall input hmem
            exact hall input (List.mem_cons_of_mem i hmem)
        · rw [if_neg hb]
          apply iff_of_false (by simp)
          intro hall
          obtain ⟨r, u, hr, hu, hs, hh⟩ := hall i (List.mem_cons_self i rest)
          rw [hf] at hr
          injection hr with hr
          rw [hg] at hu
          injection hu with hu
          rw [← hr] at hs
          rw [← hu] at hs
          exact hb (by simp [VerifySignature, hs, hh])

/-- C1: the verifier returned by `VerifyTransactions`, wired to the
spec-modelled `wallet.VerifySignature`, answers true exactly when every
input finds an output whose recipient differs from the input sender, the
referenced UTXO exists, the abstract signature check accepts the payload
`(Recipient, Sender, Value)`, and the input verifier key hashes to the
input public-key hash; it answers false whenever any input fails any of
these checks. -/
theorem verifyTransactions_iff (getTxUTXO : Bytes → Int → Option UTXO)
    (sigOk : Signable → String → String → Bool) (hashPub : String → Bytes)
    (t : Transaction) :
    VerifyTransactions getTxUTXO (VerifySignature sigOk hashPub) t = true ↔
      ∀ input ∈ t.inputs, ∃ receiver utxo,
        t.outputs.Find (fun o => decide (o.publicKeyHash ≠ input.publicKeyHash))
          = some receiver ∧
        getTxUTXO input.transactionID input.vout = some utxo ∧
        sigOk (Signable.mk receiver.publicKeyHash input.publicKeyHash utxo.value)
          (base64Encode input.signature) (base64Encode input.verifier) = true ∧
        hashPub (base64Encode input.verifier) = input.publicKeyHash :=
  verifyInputsLoop_iff getTxUTXO sigOk hashPub t.outputs t.inputs

/-! ## Claim C4: stake transactions -/

theorem utxosSum_foldl (l : UTXOs) : ∀ a : Int,
    l.foldl (fun sum u => sum + u.value) a = a + UTXOs.Sum l := by
  induction l with
  | nil => intro a; simp [UTXOs.Sum]
  | cons u rest ih =>
    intro a
    simp only [UTXOs.Sum, List.foldl_cons]
    rw [ih (a + u.value), ih (0 + u.value)]
    ring

theorem utxosSum_cons (u : UTXO) (l : UTXOs) :
    UTXOs.Sum (u :: l) = u.value + UTXOs.Sum l := by
  rw [UTXOs.Sum, List.foldl_cons, utxosSum_foldl]
  ring

theorem stakeLoop_eq (signer : Signable → Bytes) (c : Wallet) (sh : Bytes)
    (target : Int) (utxos : UTXOs) : ∀ (acc : Int) (accIn : Inputs),
    stakeLoop signer c sh target utxos acc accIn =
      (acc + UTXOs.Sum (takeUntilSum target acc utxos),
       accIn ++ (takeUntilSum target acc utxos).map (stakeInput signer c sh)) := by
  induction utxos with
  | nil =>
    intro acc accIn
    simp [stakeLoop, takeUntilSum, UTXOs.Sum]
  | cons u rest ih =>
    intro acc accIn
    simp only [stakeLoop, takeUntilSum]
    by_cases hge : acc + u.value ≥ target
    · rw [if_pos hge, if_pos hge]
      simp [utxosSum_cons, UTXOs.Sum, stakeInput]
    · rw [if_neg hge, if_neg hge, ih]
      rw [utxosSum_cons, Prod.mk.injEq]
      refine ⟨by ring, ?_⟩
      simp [stakeInput]

theorem takeUntilSum_reaches (target : Int) (utxos : UTXOs) : ∀ acc : Int,
    acc + UTXOs.Sum (takeUntilSum target acc utxos) ≥ target ∨
      takeUntilSum target acc utxos = utxos := by
  induction utxos with
  | nil => intro acc; right; rfl
  | cons u rest ih =>
    intro acc
    simp only [takeUntilSum]
    by_cases hge : acc + u.value ≥ target
    · left
      rw [if_pos hge, utxosSum_cons]
      simp only [UTXOs.Sum, List.foldl_nil]
      omega
    · rw [if_neg hge]
      rcases ih (acc + u.value) with hl | hr
      · left
        rw [utxosSum_cons]
        omega
      · right
        rw [hr]

theorem tdiv_two_le_self (T : Int) (h : 5 ≤ Int.tdiv T 2) : Int.tdiv T 2 ≤ T := by
  by_cases hT : 0 ≤ T
  · rw [Int.tdiv_eq_ediv hT (by omega)] at h ⊢
    omega
  · exfalso
    have h1 : 0 ≤ (-T).tdiv 2 := Int.tdiv_nonneg (by omega) (by omega)
    rw [Int.neg_tdiv] at h1
    omega

/-- C4: for the stake creator with UTXO set `utxos` of total `T`,
`NewStakeTransaction` fails with `CantForge` exactly when
`target = T / 2 < VoteValue / 2 = 5` (Go truncating division); otherwise
it consumes the shortest prefix of the UTXOs whose running sum reaches the
target, pays `target` to the stakeholder, pays the change `sum - target`
back to the creator exactly when `sum > target`, and the outputs total
equals the consumed total. -/
theorem newStakeTransaction_spec (utxos : UTXOs) (signer : Signable → Bytes)
    (stakeCreator : Wallet) (stakeholder : Bytes) (ts : Int) :
    (NewStakeTransaction (fun _ => utxos) signer stakeCreator stakeholder ts
        = .error .cantForge ↔ Int.tdiv utxos.Sum 2 < 5) ∧
    (¬ Int.tdiv utxos.Sum 2 < 5 →
      NewStakeTransaction (fun _ => utxos) signer stakeCreator stakeholder ts
        = .ok (NewTransaction
            ((takeUntilSum (Int.tdiv utxos.Sum 2) 0 utxos).map
              (stakeInput signer stakeCreator stakeholder))
            ([Output.mk (Int.tdiv utxos.Sum 2) stakeholder] ++
              (if UTXOs.Sum (takeUntilSum (Int.tdiv utxos.Sum 2) 0 utxos)
                    > Int.tdiv utxos.Sum 2
               then [Output.mk
                      (UTXOs.Sum (takeUntilSum (Int.tdiv utxos.Sum 2) 0 utxos)
                        - Int.tdiv utxos.Sum 2)
                      stakeCreator.publicKeyHash]
               else []))
            ts) ∧
      Outputs.Sum ([Output.mk (Int.tdiv utxos.Sum 2) stakeholder] ++
          (if UTXOs.Sum (takeUntilSum (Int.tdiv utxos.Sum 2) 0 utxos)
                > Int.tdiv utxos.Sum 2
           then [Output.mk
                  (UTXOs.Sum (takeUntilSum (Int.tdiv utxos.Sum 2) 0 utxos)
                    - Int.tdiv utxos.Sum 2)
                  stakeCreator.publicKeyHash]
           else []))
        = UTXOs.Sum (takeUntilSum (Int.tdiv utxos.Sum 2) 0 utxos)) := by
  have hvote : Int.tdiv VoteValue 2 = 5 := by decide
  constructor
  · unfold NewStakeTransaction
    rw [hvote]
    by_cases hlt : Int.tdiv utxos.Sum 2 < 5
    · rw [if_pos hlt]
      simp [hlt]
    · rw [if_neg hlt]
      rw [stakeLoop_eq]
      simp [hlt]
  · intro hge
    have hreach : UTXOs.Sum (takeUntilSum (Int.tdiv utxos.Sum 2) 0 utxos)
        ≥ Int.tdiv utxos.Sum 2 := by
      rcases takeUntilSum_reaches (Int.tdiv utxos.Sum 2) utxos 0 with hl | hr
      · omega
      · rw [hr]
        exact tdiv_two_le_self utxos.Sum (by omega)
    constructor
    · unfold NewStakeTransaction
      rw [hvote, if_neg hge, stakeLoop_eq]
      simp only [List.nil_append, Int.zero_add, zero_add]
    · by_cases hgt : UTXOs.Sum (takeUntilSum (Int.tdiv utxos.Sum 2) 0 utxos)
          > Int.tdiv utxos.Sum 2
      · rw [if_pos hgt]
        simp only [Outputs.Sum, List.foldl_cons, List.foldl_nil, List.cons_append,
          List.nil_append]
        ring
      · rw [if_neg hgt]
        have : UTXOs.Sum (takeUntilSum (Int.tdiv utxos.Sum 2) 0 utxos)
            = Int.tdiv utxos.Sum 2 := by omega
        simp only [Outputs.Sum, List.foldl_cons, List.foldl_nil, List.append_nil]
        omega

/-! ## Claim C7: AddBlock -/

theorem bucketGet_delete_none {α : Type} (b : BBucket α) (k k' : Bytes)
    (h : bucketGet b k = none) : bucketGet (bucketDelete b k') k = none := by
  unfold bucketGet bucketDelete at *
  rw [Option.map_eq_none'] at h ⊢
  rw [List.find?_eq_none] at h ⊢
  intro p hp
  exact h p (List.mem_filter.1 hp).1

theorem deleteTransaction_blocks (db : DB) (t : Transaction) :
    (deleteTransaction db t).blocks = db.blocks := by
  cases h : db.ether <;> simp [deleteTransaction, h]

theorem deleteTransaction_utxosByPkey (db : DB) (t : Transaction) :
    (deleteTransaction db t).utxosByPkey = db.utxosByPkey := by
  cases h : db.ether <;> simp [deleteTransaction, h]

theorem deleteTransaction_utxosByTx (db : DB) (t : Transaction) :
    (deleteTransaction db t).utxosByTx = db.utxosByTx := by
  cases h : db.ether <;> simp [deleteTransaction, h]

theorem applyTx_blocks (db : DB) (t : Transaction) :
    (saveUTXOS (deleteTransaction db t) t.UTXOs).blocks = db.blocks := by
  show (deleteTransaction db t).blocks = db.blocks
  exact deleteTransaction_blocks db t

theorem foldl_applyTx_blocks (txs : List Transaction) : ∀ db : DB,
    (txs.foldl (fun db t => saveUTXOS (deleteTransaction db t) t.UTXOs) db).blocks
      = db.blocks := by
  induction txs with
  | nil => intro db; rfl
  | cons t rest ih =>
    intro db
    rw [List.foldl_cons, ih, applyTx_blocks]

theorem getMempoolTx_eq (db : DB) (id : Bytes) :
    getMempoolTx db id = bucketGet (db.ether.getD []) id := by
  cases h : db.ether <;> simp [getMempoolTx, h, bucketGet]

theorem applyTx_mempool_self (db : DB) (t : Transaction) :
    getMempoolTx (saveUTXOS (deleteTransaction db t) t.UTXOs) t.id = none := by
  have hsave : (saveUTXOS (deleteTransaction db t) t.UTXOs).ether
      = (deleteTransaction db t).ether := rfl
  rw [getMempoolTx_eq, hsave]
  cases h : db.ether with
  | none => simp [deleteTransaction, h, bucketGet]
  | some b => simp [deleteTransaction, h, bucketGet_delete_self]

theorem applyTx_mempool_none (db : DB) (t : Transaction) (id : Bytes)
    (h : getMempoolTx db id = none) :
    getMempoolTx (saveUTXOS (deleteTransaction db t) t.UTXOs) id = none := by
  have hsave : (saveUTXOS (deleteTransaction db t) t.UTXOs).ether
      = (deleteTransaction db t).ether := rfl
  rw [getMempoolTx_eq, hsave]
  rw [getMempoolTx_eq] at h
  cases hde : db.ether with
  | none => simp [deleteTransaction, hde, bucketGet]
  | some b =>
    rw [hde] at h
    simp only [deleteTransaction, hde]
    exact bucketGet_delete_none b id t.id h

theorem foldl_applyTx_mempool_none (txs : List Transaction) : ∀ (db : DB) (id : Bytes),
    getMempoolTx db id = none →
    getMempoolTx (txs.foldl (fun db t => saveUTXOS (deleteTransaction db t) t.UTXOs) db) id
      = none := by
  induction txs with
  | nil => intro db id h; exact h
  | cons t rest ih =>
    intro db id h
    rw [List.foldl_cons]
    exact ih _ id (applyTx_mempool_none db t id h)

theorem foldl_applyTx_mempool (txs : List Transaction) : ∀ db : DB, ∀ t ∈ txs,
    getMempoolTx (txs.foldl (fun db t => saveUTXOS (deleteTransaction db t) t.UTXOs) db) t.id
      = none := by
  induction txs with
  | nil => intro db t ht; exact absurd ht (List.not_mem_nil t)
  | cons t0 rest ih =>
    intro db t ht
    rw [List.foldl_cons]
    rcases List.mem_cons.1 ht with he | hm
    · rw [he]
      exact foldl_applyTx_mempool_none rest _ t0.id (applyTx_mempool_self db t0)
    · exact ih _ t hm

theorem bucketMem_putStep (start : BBucket UTXOs) (kv k : Bytes) (w : UTXOs) (x : UTXO)
    (h : x ∈ (bucketGet start k).getD []) :
    x ∈ (bucketGet (bucketPut start kv ((bucketGet start kv).getD [] ++ w)) k).getD [] := by
  by_cases hk : k = kv
  · rw [hk] at h ⊢
    rw [bucketGet_put_self]
    exact List.mem_append_left w h
  · rw [bucketGet_put_other start kv k _ hk]
    exact h

theorem saveFold_mem_mono (keyOf : UTXO → Bytes) (us : UTXOs) :
    ∀ (start : BBucket UTXOs) (k : Bytes) (x : UTXO),
    x ∈ (bucketGet start k).getD [] →
    x ∈ (bucketGet (us.foldl
          (fun (b : BBucket UTXOs) v =>
            bucketPut b (keyOf v) ((bucketGet b (keyOf v)).getD [] ++ [v])) start) k).getD [] := by
  induction us with
  | nil => intro start k x h; exact h
  | cons v rest ih =>
    intro start k x h
    rw [List.foldl_cons]
    exact ih _ k x (bucketMem_putStep start (keyOf v) k [v] x h)

theorem saveFold_mem (keyOf : UTXO → Bytes) (us : UTXOs) :
    ∀ (start : BBucket UTXOs) (u : UTXO), u ∈ us →
    u ∈ (bucketGet (us.foldl
          (fun (b : BBucket UTXOs) v =>
            bucketPut b (keyOf v) ((bucketGet b (keyOf v)).getD [] ++ [v])) start)
        (keyOf u)).getD [] := by
  induction us with
  | nil => intro start u hu; exact absurd hu (List.not_mem_nil u)
  | cons v rest ih =>
    intro start u hu
    rw [List.foldl_cons]
    rcases List.mem_cons.1 hu with he | hm
    · rw [he]
      apply saveFold_mem_mono
      rw [bucketGet_put_self]
      exact List.mem_append_right _ (List.mem_singleton.2 rfl)
    · exact ih _ u hm

theorem getUTXOsByPublicKey_eq (db : DB) (k : Bytes) :
    getUTXOsByPublicKey db k = (bucketGet (db.utxosByPkey.getD []) k).getD [] := by
  cases h : db.utxosByPkey <;> simp [getUTXOsByPublicKey, h, bucketGet]

theorem getUTXOByTransactionID_eq (db : DB) (k : Bytes) :
    getUTXOByTransactionID db k = (bucketGet (db.utxosByTx.getD []) k).getD [] := by
  cases h : db.utxosByTx <;> simp [getUTXOByTransactionID, h, bucketGet]

theorem saveUTXOs_mem_pkey (db : DB) (us : UTXOs) (u : UTXO) (hu : u ∈ us) :
    u ∈ getUTXOsByPublicKey (saveUTXOs db us) u.publicKeyHash := by
  have hfix : (saveUTXOs db us).utxosByPkey = (saveUTXOsByPublicKey db us).utxosByPkey := rfl
  rw [getUTXOsByPublicKey_eq, hfix]
  exact saveFold_mem (fun v => v.publicKeyHash) us (db.utxosByPkey.getD []) u hu

theorem saveUTXOs_mem_tx (db : DB) (us : UTXOs) (u : UTXO) (hu : u ∈ us) :
    u ∈ getUTXOByTransactionID (saveUTXOs db us) u.transactionID := by
  rw [getUTXOByTransactionID_eq]
  have hstart : (saveUTXOs db us).utxosByTx
      = some ((saveUTXOsByPublicKey db us).utxosByTx.getD [] |> us.foldl
          (fun (b : BBucket UTXOs) v =>
            bucketPut b v.transactionID ((bucketGet b v.transactionID).getD [] ++ [v]))) := rfl
  rw [hstart]
  exact saveFold_mem (fun v => v.transactionID) us _ u hu

theorem saveUTXOs_mono_pkey (db : DB) (us : UTXOs) (k : Bytes) (x : UTXO)
    (h : x ∈ getUTXOsByPublicKey db k) :
    x ∈ getUTXOsByPublicKey (saveUTXOs db us) k := by
  have hfix : (saveUTXOs db us).utxosByPkey = (saveUTXOsByPublicKey db us).utxosByPkey := rfl
  rw [getUTXOsByPublicKey_eq, hfix]
  rw [getUTXOsByPublicKey_eq] at h
  exact saveFold_mem_mono (fun v => v.publicKeyHash) us (db.utxosByPkey.getD []) k x h

theorem saveUTXOs_mono_tx (db : DB) (us : UTXOs) (k : Bytes) (x : UTXO)
    (h : x ∈ getUTXOByTransactionID db k) :
    x ∈ getUTXOByTransactionID (saveUTXOs db us) k := by
  rw [getUTXOByTransactionID_eq] at h ⊢
  have hpk : (saveUTXOsByPublicKey db us).utxosByTx = db.utxosByTx := rfl
  have hstart : (saveUTXOs db us).utxosByTx
      = some ((saveUTXOsByPublicKey db us).utxosByTx.getD [] |> us.foldl
          (fun (b : BBucket UTXOs) v =>
            bucketPut b v.transactionID ((bucketGet b v.transactionID).getD [] ++ [v]))) := rfl
  rw [hstart, hpk]
  exact saveFold_mem_mono (fun v => v.transactionID) us (db.utxosByTx.getD []) k x h

theorem applyTx_mem (db : DB) (t : Transaction) (u : UTXO) (hu : u ∈ t.UTXOs) :
    u ∈ getUTXOsByPublicKey (saveUTXOS (deleteTransaction db t) t.UTXOs) u.publicKeyHash ∧
    u ∈ getUTXOByTransactionID (saveUTXOS (deleteTransaction db t) t.UTXOs) u.transactionID :=
  ⟨saveUTXOs_mem_pkey _ t.UTXOs u hu, saveUTXOs_mem_tx _ t.UTXOs u hu⟩

theorem applyTx_mono (db : DB) (t : Transaction) (k1 k2 : Bytes) (x : UTXO) :
    (x ∈ getUTXOsByPublicKey db k1 →
      x ∈ getUTXOsByPublicKey (saveUTXOS (deleteTransaction db t) t.UTXOs) k1) ∧
    (x ∈ getUTXOByTransactionID db k2 →
      x ∈ getUTXOByTransactionID (saveUTXOS (deleteTransaction db t) t.UTXOs) k2) := by
  constructor
  · intro h
    apply saveUTXOs_mono_pkey
    rw [getUTXOsByPublicKey_eq, deleteTransaction_utxosByPkey]
    rw [getUTXOsByPublicKey_eq] at h
    exact h
  · intro h
    apply saveUTXOs_mono_tx
    rw [getUTXOByTransactionID_eq, deleteTransaction_utxosByTx]
    rw [getUTXOByTransactionID_eq] at h
    exact h

theorem foldl_applyTx_mono (txs : List Transaction) : ∀ (db : DB) (k1 k2 : Bytes) (x : UTXO),
    (x ∈ getUTXOsByPublicKey db k1 →
      x ∈ getUTXOsByPublicKey
        (txs.foldl (fun db t => saveUTXOS (deleteTransaction db t) t.UTXOs) db) k1) ∧
    (x ∈ getUTXOByTransactionID db k2 →
      x ∈ getUTXOByTransactionID
        (txs.foldl (fun db t => saveUTXOS (deleteTransaction db t) t.UTXOs) db) k2) := by
  induction txs with
  | nil => intro db k1 k2 x; exact ⟨id, id⟩
  | cons t rest ih =>
    intro db k1 k2 x
    rw [List.foldl_cons]
    constructor
    · intro h
      exact (ih _ k1 k2 x).1 ((applyTx_mono db t k1 k2 x).1 h)
    · intro h
      exact (ih _ k1 k2 x).2 ((applyTx_mono db t k1 k2 x).2 h)

theorem foldl_applyTx_utxos (txs : List Transaction) : ∀ db : DB, ∀ t ∈ txs, ∀ u ∈ t.UTXOs,
    u ∈ getUTXOsByPublicKey
      (txs.foldl (fun db t => saveUTXOS (deleteTransaction db t) t.UTXOs) db)
      u.publicKeyHash ∧
    u ∈ getUTXOByTransactionID
      (txs.foldl (fun db t => saveUTXOS (deleteTransaction db t) t.UTXOs) db)
      u.transactionID := by
  induction txs with
  | nil => intro db t ht; exact absurd ht (List.not_mem_nil t)
  | cons t0 rest ih =>
    intro db t ht u hu
    rw [List.foldl_cons]
    rcases List.mem_cons.1 ht with he | hm
    · rw [he] at hu
      obtain ⟨h1, h2⟩ := applyTx_mem db t0 u hu
      exact ⟨(foldl_applyTx_mono rest _ u.publicKeyHash u.transactionID u).1 h1,
             (foldl_applyTx_mono rest _ u.publicKeyHash u.transactionID u).2 h2⟩
    · exact ih _ t hm u hu

theorem getTip_of_blocks_eq (db1 db2 : DB) (h : db1.blocks = db2.blocks) :
    GetTip db1 = GetTip db2 := by
  unfold GetTip
  rw [h]

theorem getBlock_of_blocks_eq (db1 db2 : DB) (hash : Bytes) (h : db1.blocks = db2.blocks) :
    GetBlock db1 hash = GetBlock db2 hash := by
  unfold GetBlock
  rw [h]

/-- C7: after `AddBlock db block` (with the block hash distinct from the
reserved tip key), the returned and stored tip is the block header hash,
the block is stored in the blocks bucket under that hash, every
transaction of the block body is gone from the mempool, and every UTXO of
every transaction of the body (one per output) is present in both UTXO
indices. -/
theorem addBlock_spec (db : DB) (block : Block) (h : block.header.hash ≠ tipKey) :
    (AddBlock db block).2 = block.header.hash ∧
    GetTip (AddBlock db block).1 = some block.header.hash ∧
    GetBlock (AddBlock db block).1 block.header.hash = some block ∧
    (∀ t ∈ block.body.transactions, getMempoolTx (AddBlock db block).1 t.id = none) ∧
    (∀ t ∈ block.body.transactions, ∀ u ∈ t.UTXOs,
      u ∈ getUTXOsByPublicKey (AddBlock db block).1 u.publicKeyHash ∧
      u ∈ getUTXOByTransactionID (AddBlock db block).1 u.transactionID) := by
  have hfst : (AddBlock db block).1
      = block.body.transactions.foldl
          (fun db t => saveUTXOS (deleteTransaction db t) t.UTXOs) (addBlock db block).1 := rfl
  have hblocks : (addBlock db block).1.blocks
      = some (bucketPut
          (bucketPut (db.blocks.getD []) block.header.hash (BlocksVal.blockVal block))
          tipKey (BlocksVal.rawVal block.header.hash)) := rfl
  refine ⟨rfl, ?_, ?_, ?_, ?_⟩
  · rw [hfst, getTip_of_blocks_eq _ (addBlock db block).1 (foldl_applyTx_blocks _ _)]
    simp only [GetTip, hblocks, bucketGet_put_self]
  · rw [hfst, getBlock_of_blocks_eq _ (addBlock db block).1 _ (foldl_applyTx_blocks _ _)]
    simp only [GetBlock, hblocks, bucketGet_put_other _ tipKey block.header.hash _ h,
      bucketGet_put_self]
  · intro t ht
    rw [hfst]
    exact foldl_applyTx_mempool block.body.transactions _ t ht
  · intro t ht u hu
    rw [hfst]
    exact foldl_applyTx_utxos block.body.transactions _ t ht u hu

/-- Witness for C7 at a concrete input: a fresh database and a one-output
block — evaluated, the tip, the stored block, the empty mempool entry and
the new UTXO in both indices are all as the theorem states. -/
theorem addBlock_spec_witness :
    (AddBlock dbW blockW).2 = blockW.header.hash ∧
    GetTip (AddBlock dbW blockW).1 = some blockW.header.hash ∧
    GetBlock (AddBlock dbW blockW).1 blockW.header.hash = some blockW ∧
    (∀ t ∈ blockW.body.transactions, getMempoolTx (AddBlock dbW blockW).1 t.id = none) ∧
    (∀ t ∈ blockW.body.transactions, ∀ u ∈ t.UTXOs,
      u ∈ getUTXOsByPublicKey (AddBlock dbW blockW).1 u.publicKeyHash ∧
      u ∈ getUTXOByTransactionID (AddBlock dbW blockW).1 u.transactionID) :=
  addBlock_spec dbW blockW (by decide)

end CryptoVote
